import Mathlib

/-
Verification of the `mem` in-process TTL key/value store and its sweep
scheduler. The definitions below are a shallow embedding of the Go source:
the store (MemData, Cache, Set/Get/Replace/Delete/CleanExpired, ExpiryTimeOpt)
and the cleaner scheduler (CleanerSchedule validation, GetTime parsing, the
next-run computations CleanFrequently/CleanDaily/CleanWeekly/CleanMonthly and
UpdateNextRun).

Modelling conventions:
- Go `int64` unix timestamps are modelled as `Int` (the operations here only
  compare and add small offsets; no overflow is reachable for realistic times).
- The Go map `map[string]*MemData` is modelled as the total function
  `String → Option MemData`; mutation becomes functional update.
- `time.Now()` is passed explicitly: as unix seconds `now : Int` for the
  store, and as a broken-down local time `GoTime` (plus nanoseconds) for the
  scheduler. The local timezone is modelled with a fixed UTC offset of zero;
  all claims proved here are offset-invariant.
- Functions that can panic in Go (index out of range) return `Option`, with
  `none` marking the panic.
-/

namespace Mem

/-- Entry of the store; mirrors Go struct MemData
    (Key, Value []byte, Expire int64 with 0 = never, Created int64). -/
structure MemData where
  key : String
  value : List Nat
  expire : Int
  created : Int
  deriving DecidableEq, Repr

/-- Go (m MemData) IsExpired: false when Expire is 0, else Expire < now
    (strict comparison against time.Now().Unix()). -/
def IsExpired (m : MemData) (now : Int) : Bool :=
  if m.expire = 0 then false else decide (m.expire < now)

/-- The store map, Go map[string]*MemData. -/
def Cache := String → Option MemData

/-- Functional update of the map, Go c.data[k] = v. -/
def insertEntry (c : Cache) (k : String) (v : MemData) : Cache :=
  fun x => if x = k then some v else c x

/-- Go Set: error when the key is already present (expired or not); otherwise
    stores a fresh entry copying Key/Value/Expire and stamping Created = now.
    The first component is the returned error (none = nil); the second is the
    map afterwards (unchanged on error, since Go returns before writing). -/
def Set (c : Cache) (m : MemData) (now : Int) : Option String × Cache :=
  match c m.key with
  | some _ => (some ("key already exists: " ++ m.key), c)
  | none => (none, insertEntry c m.key ⟨m.key, m.value, m.expire, now⟩)

/-- Go Get: returns (Value, true) when the key is present and not expired,
    (nil, false) otherwise; takes only the read lock and never writes. -/
def Get (c : Cache) (key : String) (now : Int) : Option (List Nat) :=
  match c key with
  | some data => if IsExpired data now = false then some data.value else none
  | none => none

/-- Go Replace: when the key is present and its entry not expired, overwrites
    that entry's Value and Expire in place (Key and Created untouched) and
    returns nil; otherwise returns the "key not found" error with the map
    unchanged. -/
def Replace (c : Cache) (key : String) (m : MemData) (now : Int) :
    Option String × Cache :=
  match c key with
  | some data =>
      if IsExpired data now = false then
        (none, insertEntry c key { data with value := m.value, expire := m.expire })
      else (some ("key not found: " ++ key), c)
  | none => (some ("key not found: " ++ key), c)

/-- Go Delete: unconditional removal. -/
def Delete (c : Cache) (key : String) : Cache :=
  fun x => if x = key then none else c x

/-- Go CleanExpired: deletes every entry whose IsExpired is true at sweep
    time. (The Go range-with-delete loop removes exactly the expired entries;
    map iteration order is irrelevant for a pointwise filter.) -/
def CleanExpired (c : Cache) (now : Int) : Cache :=
  fun k =>
    match c k with
    | some v => if IsExpired v now then none else some v
    | none => none

/-- Schedule type constants of cleaner.go (iota). -/
def FREQUENTLY : Int := 0

def DAILY : Int := 1

def WEEKLY : Int := 2

def MONTHLY : Int := 3

/-- Frequently interval constants of cleaner.go (iota + 1). -/
def EVERY_SECOND : Int := 1

def EVERY_MINUTE : Int := 2

def EVERY_HOUR : Int := 3

/-- Day name constants of cleaner.go (iota + 1). -/
def SUNDAY : Int := 1

def MONDAY : Int := 2

def TUESDAY : Int := 3

def WEDNESDAY : Int := 4

def THURSDAY : Int := 5

def FRIDAY : Int := 6

def SATURDAY : Int := 7

/-- Go: if timeIntervalValue <= 0 { timeIntervalValue = 1 }. -/
def effectiveIntervalValue (v : Int) : Int := if v ≤ 0 then 1 else v

/-- Go ExpiryTimeOpt: for a valid interval constant it adds
    time.Duration(timeInterval) * time.Duration(timeIntervalValue) to now --
    a product of two bare Durations, i.e. timeInterval * value NANOSECONDS --
    and returns .Unix(); otherwise it adds 30 minutes. `nowNs` is time.Now()
    in nanoseconds since the epoch; .Unix() is floor division by 1e9, which
    is Int ediv (the `/` of Int) for the positive divisor. -/
def ExpiryTimeOpt (timeInterval timeIntervalValue : Int) (nowNs : Int) : Int :=
  if timeInterval = EVERY_SECOND ∨ timeInterval = EVERY_MINUTE ∨
      timeInterval = EVERY_HOUR then
    (nowNs + timeInterval * effectiveIntervalValue timeIntervalValue) / 1000000000
  else
    (nowNs + 1800 * 1000000000) / 1000000000

/-- Split on the colon character, Go strings.Split(s, ":"): the empty string
    yields one empty field, and a trailing colon yields a trailing empty
    field. -/
def splitCols : List Char → List (List Char)
  | [] => [[]]
  | c :: rest =>
      if c = ':' then [] :: splitCols rest
      else
        match splitCols rest with
        | [] => [[c]]
        | h :: t => (c :: h) :: t

/-- Decimal value of a digit list, most significant first. -/
def digitsToNat (l : List Char) : Nat :=
  l.foldl (fun acc c => acc * 10 + (c.toNat - 48)) 0

/-- Go strconv.Atoi: an optional single leading sign followed by one or more
    ASCII digits; anything else is an error (none). The int64 overflow check
    of Atoi is not modelled -- no input considered here comes near 19 digits. -/
def atoi (l : List Char) : Option Int :=
  match l with
  | '+' :: rest =>
      if rest = [] then none
      else if rest.all Char.isDigit then some (digitsToNat rest : Int) else none
  | '-' :: rest =>
      if rest = [] then none
      else if rest.all Char.isDigit then some (-(digitsToNat rest : Int)) else none
  | _ =>
      if l = [] then none
      else if l.all Char.isDigit then some (digitsToNat l : Int) else none

/-- Go GetTime of cleaner.go: Atoi(Split(s, ":")[0]) -- index 0 always
    exists -- and on error return (0, 0); otherwise Atoi(Split(s, ":")[1]),
    which PANICS (modelled as none) when the split produced fewer than two
    fields, and on Atoi error returns (0, 0); otherwise the parsed pair. -/
def GetTime (startTime : String) : Option (Int × Int) :=
  match atoi ((splitCols startTime.data).headD []) with
  | none => some (0, 0)
  | some h =>
      match (splitCols startTime.data).drop 1 with
      | [] => none
      | f2 :: _ =>
          match atoi f2 with
          | none => some (0, 0)
          | some mi => some (h, mi)

/-- The cleaner schedule, Go struct CleanerSchedule. -/
structure CleanerSchedule where
  scheduleType : Int
  interval : Int
  intervalValue : Int
  startTime : String
  deriving DecidableEq, Repr

/-- Go getSchedTypeName. -/
def getSchedTypeName (s : CleanerSchedule) : String :=
  if s.scheduleType = FREQUENTLY then "frequently"
  else if s.scheduleType = DAILY then "daily"
  else if s.scheduleType = WEEKLY then "weekly"
  else if s.scheduleType = MONTHLY then "monthly"
  else ""

/-- Whitespace test of Go strings.TrimSpace, ASCII portion: space and the
    control range tab..carriage-return. -/
def isGoSpace (c : Char) : Bool :=
  decide (c.toNat = 32 ∨ (9 ≤ c.toNat ∧ c.toNat ≤ 13))

/-- Models the Go test len(strings.TrimSpace(s)) == 0: true exactly when
    every character of s is whitespace. -/
def blankAfterTrim (s : String) : Bool := s.data.all isGoSpace

/-- Go (cs CleanerSchedule) Error(), the schedule validation: none = valid
    (nil error), some msg = the returned error. The emptiness-after-TrimSpace
    tests are modelled by blankAfterTrim.
    Note the FREQUENTLY case checks Interval and that StartTime is empty but
    never looks at IntervalValue; the WEEKLY case falls through to the final
    "invalid interval" error when Interval is outside 1..7. -/
def scheduleError (cs : CleanerSchedule) : Option String :=
  let n0 := getSchedTypeName cs
  let schedTypeName :=
    if blankAfterTrim n0 then "unknown: " ++ toString cs.scheduleType else n0
  if ¬(cs.scheduleType = FREQUENTLY ∨ cs.scheduleType = DAILY ∨
        cs.scheduleType = WEEKLY ∨ cs.scheduleType = MONTHLY) then
    some ("invalid schedule type: " ++ schedTypeName)
  else if cs.scheduleType = FREQUENTLY then
    if cs.interval = EVERY_SECOND ∨ cs.interval = EVERY_MINUTE ∨
        cs.interval = EVERY_HOUR then
      if blankAfterTrim cs.startTime then none
      else some ("start time input for the schedule type " ++ schedTypeName ++
        " is not allowed")
    else
      some ("invalid interval: " ++ toString cs.interval ++
        ", options are: EVERY_SECOND, EVERY_MINUTE, EVERY_HOUR")
  else if cs.scheduleType = DAILY then
    if blankAfterTrim cs.startTime then
      some ("invalid start time: " ++ cs.startTime)
    else none
  else if cs.scheduleType = WEEKLY then
    if 1 ≤ cs.interval ∧ cs.interval ≤ 7 then
      if blankAfterTrim cs.startTime then
        some ("invalid start time: " ++ cs.startTime)
      else none
    else
      some ("invalid interval: " ++ toString cs.interval ++
        " for the schedule type: " ++ schedTypeName)
  else
    if blankAfterTrim cs.startTime then
      some ("invalid start time: " ++ cs.startTime)
    else if 1 ≤ cs.interval ∧ cs.interval ≤ 31 then none
    else
      some ("invalid interval: " ++ toString cs.interval ++ ", options are: 1-31")

/-- Civil-calendar year adjustment of the days-from-civil algorithm that
    proleptic-Gregorian libraries (and Go's time.Date) implement: the year
    starts in March. Expects the month already normalized to 1..12. -/
def civilYearAdj (y m : Int) : Int := if m ≤ 2 then y - 1 else y

/-- Day of the shifted (March-first) year, plus the day-of-month offset;
    affine in d, matching Go time.Date's normalization of arbitrary day
    arguments. Expects the month normalized to 1..12. -/
def civilDoy (m d : Int) : Int :=
  (153 * (if 2 < m then m - 3 else m + 9) + 2) / 5 + d - 1

/-- Days since 1970-01-01 of the proleptic-Gregorian civil date (y, m, d)
    with m already in 1..12 and d an arbitrary offset day. Int `/` is
    Euclidean division, which is floor division for the positive divisors
    used here, as the algorithm requires. -/
def daysFromCivil (y m d : Int) : Int :=
  (civilYearAdj y m / 400) * 146097 +
    (Int.emod (civilYearAdj y m) 400 * 365 +
      Int.emod (civilYearAdj y m) 400 / 4 -
      Int.emod (civilYearAdj y m) 400 / 100 +
      civilDoy m d) - 719468

/-- Day number (days since 1970-01-01) of Go time.Date(y, m, d, ...): the
    month is first normalized into 1..12 carrying into the year (Go's norm),
    the day is an arbitrary offset. -/
def dateToDay (y m d : Int) : Int :=
  daysFromCivil (y + (m - 1) / 12) (Int.emod (m - 1) 12 + 1) d

/-- Go time.Weekday of a day number: 1970-01-01 was a Thursday (4);
    Sunday = 0 .. Saturday = 6. -/
def weekdayOfDay (d : Int) : Int := Int.emod (d + 4) 7

/-- A Go time.Time instant in the Local zone, broken down the way the
    cleaner reads it: calendar date (Year/Month/Day), seconds since local
    midnight, and nanoseconds within the second. The Local zone is modelled
    as a fixed zero UTC offset; every property proved here is invariant
    under shifting that offset. -/
structure GoTime where
  year : Int
  month : Int
  day : Int
  secOfDay : Int
  nsOfSec : Int
  deriving DecidableEq, Repr

/-- Day number of the instant's calendar date. -/
def GoTime.dayNum (t : GoTime) : Int := dateToDay t.year t.month t.day

/-- Unix seconds of the instant, Go t.Unix(). -/
def GoTime.toUnix (t : GoTime) : Int := t.dayNum * 86400 + t.secOfDay

/-- Nanoseconds since the epoch of the instant. -/
def GoTime.toUnixNs (t : GoTime) : Int := t.toUnix * 1000000000 + t.nsOfSec

/-- Go time.Now().Weekday() of the instant. -/
def GoTime.weekday (t : GoTime) : Int := weekdayOfDay t.dayNum

/-- A well-formed broken-down instant: the in-day fields are in range. -/
def GoTime.WF (t : GoTime) : Prop :=
  0 ≤ t.secOfDay ∧ t.secOfDay < 86400 ∧ 0 ≤ t.nsOfSec ∧ t.nsOfSec < 1000000000

instance (t : GoTime) : Decidable t.WF := by
  unfold GoTime.WF
  infer_instance

/-- Go (c Cleaner) CleanFrequently: normalizes IntervalValue to 1 when it is
    ≤ 0 -- writing THROUGH to the schedule -- then sets NextRun to
    time.Now().Add(unit * Duration(IntervalValue)).Unix(); NextRun keeps its
    old value (nextRun0) for an unrecognized Interval. Returns the schedule
    as left behind and the new NextRun. -/
def CleanFrequently (s : CleanerSchedule) (now : GoTime) (nextRun0 : Int) :
    CleanerSchedule × Int :=
  let s2 := if s.intervalValue ≤ 0 then { s with intervalValue := 1 } else s
  let nr :=
    if s2.interval = EVERY_SECOND then
      (now.toUnixNs + 1000000000 * s2.intervalValue) / 1000000000
    else if s2.interval = EVERY_MINUTE then
      (now.toUnixNs + 60000000000 * s2.intervalValue) / 1000000000
    else if s2.interval = EVERY_HOUR then
      (now.toUnixNs + 3600000000000 * s2.intervalValue) / 1000000000
    else nextRun0
  (s2, nr)

/-- Go (c Cleaner) CleanDaily: NextRun = time.Date(Year(now), Month(now),
    Day(now)+1, startTimeHour, startTimeMinute, 0, 0, Local).Unix(). The
    GetTime panic propagates (none). -/
def CleanDaily (s : CleanerSchedule) (now : GoTime) :
    Option (CleanerSchedule × Int) :=
  match GetTime s.startTime with
  | none => none
  | some (h, mi) =>
      some (s, dateToDay now.year now.month (now.day + 1) * 86400 +
        h * 3600 + mi * 60)

/-- Go (c Cleaner) CleanWeekly: dayOfWeek := Interval - 1; the instant
    nextDayOfWeek := now.AddDate(0, 0, dayOfWeek + int(now.Weekday()) - 1);
    NextRun = time.Date(nextDayOfWeek's date, hour, minute, 0, 0).Unix(),
    i.e. day number now.dayNum + (dayOfWeek + weekday(now) - 1). -/
def CleanWeekly (s : CleanerSchedule) (now : GoTime) :
    Option (CleanerSchedule × Int) :=
  match GetTime s.startTime with
  | none => none
  | some (h, mi) =>
      some (s, (now.dayNum + ((s.interval - 1) + now.weekday - 1)) * 86400 +
        h * 3600 + mi * 60)

/-- Go (c Cleaner) CleanMonthly: NextRun = time.Date(Year(now),
    Month(now)+1, Interval, hour, minute, 0, 0, Local).Unix(). -/
def CleanMonthly (s : CleanerSchedule) (now : GoTime) :
    Option (CleanerSchedule × Int) :=
  match GetTime s.startTime with
  | none => none
  | some (h, mi) =>
      some (s, dateToDay now.year (now.month + 1) s.interval * 86400 +
        h * 3600 + mi * 60)

/-- Go (c Cleaner) UpdateNextRun: dispatches on ScheduleType and repeats the
    arithmetic of the four Clean functions verbatim (including the
    IntervalValue write-through in the FREQUENTLY case); an unknown
    ScheduleType leaves NextRun (nextRun0) unchanged. -/
def UpdateNextRun (s : CleanerSchedule) (now : GoTime) (nextRun0 : Int) :
    Option (CleanerSchedule × Int) :=
  if s.scheduleType = FREQUENTLY then some (CleanFrequently s now nextRun0)
  else if s.scheduleType = DAILY then CleanDaily s now
  else if s.scheduleType = WEEKLY then CleanWeekly s now
  else if s.scheduleType = MONTHLY then CleanMonthly s now
  else some (s, nextRun0)

/-- The spec's unit mapping for Frequent schedules, in seconds: Second,
    Minute, Hour. Stated from the spec's words for comparison with
    CleanFrequently (claim C7). -/
def specUnitSeconds (i : Int) : Int :=
  if i = EVERY_SECOND then 1
  else if i = EVERY_MINUTE then 60
  else if i = EVERY_HOUR then 3600
  else 0

end Mem

/-- C1: Get returns (value, found=true) iff the key holds an entry that is
    not expired (its expiration, when present, is not in the past, i.e.
    now ≤ expire, matching the strict `Expire < now` of IsExpired); otherwise
    it reports not-found. Get takes only the read lock and returns no new
    map, so it cannot mutate the store: an expired-but-unswept entry stays
    physically present and is merely reported not-found, which the second
    conjunct states explicitly. -/
theorem Mem.C1_get_found_iff_present_unexpired (c : Mem.Cache) (k : String)
    (now : Int) (v : List Nat) :
    (Mem.Get c k now = some v ↔
      ∃ e, c k = some e ∧ (e.expire = 0 ∨ now ≤ e.expire) ∧ e.value = v) ∧
    (∀ e, c k = some e → e.expire ≠ 0 → e.expire < now →
      Mem.Get c k now = none ∧ c k = some e) := by
  have hiff : ∀ e : Mem.MemData,
      Mem.IsExpired e now = false ↔ (e.expire = 0 ∨ now ≤ e.expire) := by
    intro e
    unfold Mem.IsExpired
    split_ifs with h
    · simp [h]
    · simp only [decide_eq_false_iff_not, not_lt]
      constructor
      · intro hle
        exact Or.inr hle
      · rintro (h0 | hle)
        · exact absurd h0 h
        · exact hle
  constructor
  · unfold Mem.Get
    cases hc : c k with
    | none => simp
    | some e =>
        dsimp only
        by_cases hexp : Mem.IsExpired e now = false
        · rw [if_pos hexp]
          constructor
          · intro hsv
            exact ⟨e, rfl, (hiff e).mp hexp, by simpa using hsv⟩
          · rintro ⟨e2, he2, hcond, hv⟩
            obtain rfl : e = e2 := by simpa using he2
            simp [hv]
        · rw [if_neg hexp]
          constructor
          · intro h
            exact absurd h (by simp)
          · rintro ⟨e2, he2, hcond, hv⟩
            obtain rfl : e = e2 := by simpa using he2
            exact absurd ((hiff e).mpr hcond) hexp
  · intro e he h0 hlt
    refine ⟨?_, he⟩
    unfold Mem.Get
    have hexp : Mem.IsExpired e now = true := by
      unfold Mem.IsExpired
      simp [h0, hlt]
    simp [he, hexp]

/-- C1 witness: a concrete expired entry ("k", expire 5) read at now = 9 is
    reported not-found yet remains physically present. -/
theorem Mem.C1_witness :
    Mem.Get (fun x => if x = "k" then some ⟨"k", [1], 5, 2⟩ else none) "k" 9 = none ∧
    (fun x => if x = "k" then some (⟨"k", [1], 5, 2⟩ : Mem.MemData) else none) "k"
      = some ⟨"k", [1], 5, 2⟩ :=
  (Mem.C1_get_found_iff_present_unexpired
      (fun x => if x = "k" then some ⟨"k", [1], 5, 2⟩ else none) "k" 9 [1]).2
    ⟨"k", [1], 5, 2⟩ (by decide) (by decide) (by decide)

/-- C2: Set fails when the key is already present in the map -- whether or
    not the stored entry is expired -- and in that case leaves the map (hence
    the stored entry) untouched; when the key is absent it succeeds and
    stores an entry with the given value and expiration and createdAt = now. -/
theorem Mem.C2_set_duplicate_key (c : Mem.Cache) (m : Mem.MemData) (now : Int) :
    ((∃ e, c m.key = some e) →
      (Mem.Set c m now).1.isSome = true ∧ (Mem.Set c m now).2 = c) ∧
    (c m.key = none →
      (Mem.Set c m now).1 = none ∧
      (Mem.Set c m now).2 = Mem.insertEntry c m.key ⟨m.key, m.value, m.expire, now⟩) := by
  constructor
  · rintro ⟨e, he⟩
    unfold Mem.Set
    rw [he]
    exact ⟨rfl, rfl⟩
  · intro hn
    unfold Mem.Set
    rw [hn]
    exact ⟨rfl, rfl⟩

/-- C2 witness: with an expired entry stored under "k" (expire 5, read at
    now = 9), a second Set of "k" still fails and leaves the map unchanged,
    while Set of the fresh key "j" succeeds. -/
theorem Mem.C2_witness :
    (Mem.Set (fun x => if x = "k" then some ⟨"k", [1], 5, 2⟩ else none)
        ⟨"k", [7], 0, 0⟩ 9).1.isSome = true ∧
    (Mem.Set (fun x => if x = "k" then some ⟨"k", [1], 5, 2⟩ else none)
        ⟨"k", [7], 0, 0⟩ 9).2
      = (fun x => if x = "k" then some ⟨"k", [1], 5, 2⟩ else none) ∧
    (Mem.Set (fun x => if x = "k" then some ⟨"k", [1], 5, 2⟩ else none)
        ⟨"j", [7], 0, 0⟩ 9).1 = none := by
  refine ⟨?_, ?_, ?_⟩
  · exact ((Mem.C2_set_duplicate_key
      (fun x => if x = "k" then some ⟨"k", [1], 5, 2⟩ else none)
      ⟨"k", [7], 0, 0⟩ 9).1 ⟨⟨"k", [1], 5, 2⟩, by decide⟩).1
  · exact ((Mem.C2_set_duplicate_key
      (fun x => if x = "k" then some ⟨"k", [1], 5, 2⟩ else none)
      ⟨"k", [7], 0, 0⟩ 9).1 ⟨⟨"k", [1], 5, 2⟩, by decide⟩).2
  · exact ((Mem.C2_set_duplicate_key
      (fun x => if x = "k" then some ⟨"k", [1], 5, 2⟩ else none)
      ⟨"j", [7], 0, 0⟩ 9).2 (by decide)).1

/-- C3: Replace fails (returns the not-found error) exactly when the key is
    absent or its entry is expired, leaving the whole map unchanged in that
    case; on success it stores an entry that keeps the old entry's key and
    created instant and takes only value and expiration from the argument,
    and no other key of the map is affected by either outcome. -/
theorem Mem.C3_replace_not_found_or_overwrite (c : Mem.Cache) (k : String)
    (m : Mem.MemData) (now : Int) :
    ((Mem.Replace c k m now).1.isSome = true ↔
      (c k = none ∨ ∃ e, c k = some e ∧ Mem.IsExpired e now = true)) ∧
    ((Mem.Replace c k m now).1.isSome = true → (Mem.Replace c k m now).2 = c) ∧
    (∀ e, c k = some e → Mem.IsExpired e now = false →
      (Mem.Replace c k m now).1 = none ∧
      (Mem.Replace c k m now).2
        = Mem.insertEntry c k ⟨e.key, m.value, m.expire, e.created⟩) ∧
    (∀ k2, k2 ≠ k → (Mem.Replace c k m now).2 k2 = c k2) := by
  refine ⟨?_, ?_, ?_, ?_⟩
  · unfold Mem.Replace
    cases hc : c k with
    | none => simp
    | some e =>
        dsimp only
        by_cases hexp : Mem.IsExpired e now = false
        · rw [if_pos hexp]
          simp only [Option.isSome_none, Bool.false_eq_true, false_iff]
          rintro (h | ⟨e2, he2, hex2⟩)
          · exact Option.noConfusion h
          · obtain rfl : e = e2 := by simpa using he2
            rw [hexp] at hex2
            exact Bool.noConfusion hex2
        · rw [if_neg hexp]
          simp only [Option.isSome_some, true_iff]
          exact Or.inr ⟨e, rfl, by simpa using hexp⟩
  · unfold Mem.Replace
    cases hc : c k with
    | none => intro _; rfl
    | some e =>
        dsimp only
        by_cases hexp : Mem.IsExpired e now = false
        · rw [if_pos hexp]
          intro h
          exact absurd h (by simp)
        · rw [if_neg hexp]
          intro _
          rfl
  · intro e he hexp
    unfold Mem.Replace
    rw [he]
    dsimp only
    rw [if_pos hexp]
    exact ⟨rfl, rfl⟩
  · intro k2 hk2
    unfold Mem.Replace
    cases hc : c k with
    | none => rfl
    | some e =>
        dsimp only
        by_cases hexp : Mem.IsExpired e now = false
        · rw [if_pos hexp]
          unfold Mem.insertEntry
          simp [hk2]
        · rw [if_neg hexp]

/-- C3 witness: replacing a live entry ("k", expire 0 = never, created 2) at
    now = 9 succeeds, keeps key and created, takes value [7] and expire 20
    from the argument; replacing the absent key "j" fails. -/
theorem Mem.C3_witness :
    (Mem.Replace (fun x => if x = "k" then some ⟨"k", [1], 0, 2⟩ else none)
        "k" ⟨"ignored", [7], 20, 99⟩ 9).1 = none ∧
    (Mem.Replace (fun x => if x = "k" then some ⟨"k", [1], 0, 2⟩ else none)
        "k" ⟨"ignored", [7], 20, 99⟩ 9).2
      = Mem.insertEntry (fun x => if x = "k" then some ⟨"k", [1], 0, 2⟩ else none)
          "k" ⟨"k", [7], 20, 2⟩ ∧
    (Mem.Replace (fun x => if x = "k" then some ⟨"k", [1], 0, 2⟩ else none)
        "j" ⟨"ignored", [7], 20, 99⟩ 9).1.isSome = true := by
  refine ⟨?_, ?_, ?_⟩
  · exact ((Mem.C3_replace_not_found_or_overwrite
      (fun x => if x = "k" then some ⟨"k", [1], 0, 2⟩ else none)
      "k" ⟨"ignored", [7], 20, 99⟩ 9).2.2.1 ⟨"k", [1], 0, 2⟩ (by decide) (by decide)).1
  · exact ((Mem.C3_replace_not_found_or_overwrite
      (fun x => if x = "k" then some ⟨"k", [1], 0, 2⟩ else none)
      "k" ⟨"ignored", [7], 20, 99⟩ 9).2.2.1 ⟨"k", [1], 0, 2⟩ (by decide) (by decide)).2
  · exact (Mem.C3_replace_not_found_or_overwrite
      (fun x => if x = "k" then some ⟨"k", [1], 0, 2⟩ else none)
      "j" ⟨"ignored", [7], 20, 99⟩ 9).1.mpr (Or.inl (by decide))

/-- C4 counterexample: the claim says an entry whose expiration equals the
    sweep instant is removed (expiresAt ≤ now). In the code IsExpired is the
    strict Expire < now, so the entry ("k", expire 100) survives a sweep at
    now = 100 even though its expiration is present and ≤ now. -/
theorem Mem.C4_counterexample :
    Mem.CleanExpired (fun x => if x = "k" then some ⟨"k", [1], 100, 0⟩ else none)
        100 "k" = some ⟨"k", [1], 100, 0⟩ ∧
    (100 : Int) ≠ 0 ∧ (100 : Int) ≤ 100 := by
  refine ⟨by decide, by decide, by decide⟩

/-- C4 amended: CleanExpired removes exactly the entries whose expiration is
    present (non-zero) and strictly before the sweep instant; an entry
    survives the sweep at time now iff it never expires or its expiration is
    ≥ now (so an entry expiring exactly at now survives). -/
theorem Mem.C4_sweep_removes_strictly_expired (c : Mem.Cache) (now : Int)
    (k : String) (e : Mem.MemData) :
    Mem.CleanExpired c now k = some e ↔
      c k = some e ∧ (e.expire = 0 ∨ now ≤ e.expire) := by
  have hiff : ∀ v : Mem.MemData,
      Mem.IsExpired v now = false ↔ (v.expire = 0 ∨ now ≤ v.expire) := by
    intro v
    unfold Mem.IsExpired
    split_ifs with h
    · simp [h]
    · simp only [decide_eq_false_iff_not, not_lt]
      constructor
      · intro hle
        exact Or.inr hle
      · rintro (h0 | hle)
        · exact absurd h0 h
        · exact hle
  unfold Mem.CleanExpired
  cases hc : c k with
  | none => simp
  | some v =>
      dsimp only
      by_cases hexp : Mem.IsExpired v now = false
      · rw [if_neg (by simp [hexp])]
        constructor
        · intro h
          obtain rfl : v = e := by simpa using h
          exact ⟨rfl, (hiff v).mp hexp⟩
        · rintro ⟨he, _⟩
          exact he
      · have hexp2 : Mem.IsExpired v now = true := by
          revert hexp
          cases Mem.IsExpired v now <;> simp
        rw [if_pos hexp2]
        constructor
        · intro h
          exact Option.noConfusion h
        · rintro ⟨he, hcond⟩
          obtain rfl : v = e := by simpa using he
          exact absurd ((hiff v).mpr hcond) hexp

/-- C4 witness: a sweep at now = 100 keeps the entry expiring exactly at 100
    and drops the one that expired at 99. -/
theorem Mem.C4_witness :
    Mem.CleanExpired
        (fun x => if x = "a" then some ⟨"a", [1], 100, 0⟩
                  else if x = "b" then some ⟨"b", [2], 99, 0⟩ else none)
        100 "a" = some ⟨"a", [1], 100, 0⟩ ∧
    ¬ (Mem.CleanExpired
        (fun x => if x = "a" then some ⟨"a", [1], 100, 0⟩
                  else if x = "b" then some ⟨"b", [2], 99, 0⟩ else none)
        100 "b" = some ⟨"b", [2], 99, 0⟩) := by
  constructor
  · exact (Mem.C4_sweep_removes_strictly_expired
      (fun x => if x = "a" then some ⟨"a", [1], 100, 0⟩
                else if x = "b" then some ⟨"b", [2], 99, 0⟩ else none)
      100 "a" ⟨"a", [1], 100, 0⟩).mpr ⟨by decide, Or.inr (by decide)⟩
  · intro h
    have := (Mem.C4_sweep_removes_strictly_expired
      (fun x => if x = "a" then some ⟨"a", [1], 100, 0⟩
                else if x = "b" then some ⟨"b", [2], 99, 0⟩ else none)
      100 "b" ⟨"b", [2], 99, 0⟩).mp h
    rcases this.2 with h0 | hle
    · exact absurd h0 (by decide)
    · exact absurd hle (by decide)

/-- C10 counterexample: at a call instant 999999999 ns after the epoch
    (current Unix second 0) with timeInterval = EVERY_SECOND and value 3, the
    multiplier 1 * 3 = 3 ns is small (< 1e9), yet ExpiryTimeOpt returns Unix
    second 1, not the current Unix second 0: the nanosecond addition crossed
    a second boundary. -/
theorem Mem.C10_expiry_counterexample :
    Mem.ExpiryTimeOpt Mem.EVERY_SECOND 3 999999999 = 1 ∧
    (999999999 : Int) / 1000000000 = 0 ∧
    Mem.EVERY_SECOND * Mem.effectiveIntervalValue 3 < 1000000000 := by
  refine ⟨by decide, by decide, by decide⟩

/-- C10 amended: for timeInterval in {1, 2, 3}, ExpiryTimeOpt returns the
    Unix second of now plus timeInterval * max(value, 1) NANOSECONDS (not
    seconds/minutes/hours); for small multipliers (< 1e9 ns) the result is
    the current Unix second or the one immediately after it (it exceeds the
    current second by at most 1, equality failing only when the addition
    crosses a second boundary) -- either way the entry is already expired
    within a second; for any other timeInterval it returns now + 30 minutes. -/
theorem Mem.C10_expiry_adds_nanoseconds (ti v nowNs : Int) :
    ((ti = Mem.EVERY_SECOND ∨ ti = Mem.EVERY_MINUTE ∨ ti = Mem.EVERY_HOUR) →
      Mem.ExpiryTimeOpt ti v nowNs
          = (nowNs + ti * Mem.effectiveIntervalValue v) / 1000000000 ∧
      nowNs / 1000000000 ≤ Mem.ExpiryTimeOpt ti v nowNs ∧
      (ti * Mem.effectiveIntervalValue v < 1000000000 →
        Mem.ExpiryTimeOpt ti v nowNs ≤ nowNs / 1000000000 + 1)) ∧
    (¬(ti = Mem.EVERY_SECOND ∨ ti = Mem.EVERY_MINUTE ∨ ti = Mem.EVERY_HOUR) →
      Mem.ExpiryTimeOpt ti v nowNs = nowNs / 1000000000 + 1800) := by
  have heff : 1 ≤ Mem.effectiveIntervalValue v := by
    unfold Mem.effectiveIntervalValue
    split <;> omega
  constructor
  · intro hti
    have hval : Mem.ExpiryTimeOpt ti v nowNs
        = (nowNs + ti * Mem.effectiveIntervalValue v) / 1000000000 := by
      unfold Mem.ExpiryTimeOpt
      rw [if_pos hti]
    rw [hval]
    simp only [Mem.EVERY_SECOND, Mem.EVERY_MINUTE, Mem.EVERY_HOUR] at hti
    refine ⟨rfl, ?_, ?_⟩ <;> rcases hti with rfl | rfl | rfl <;> omega
  · intro hti
    have hval : Mem.ExpiryTimeOpt ti v nowNs
        = (nowNs + 1800 * 1000000000) / 1000000000 := by
      unfold Mem.ExpiryTimeOpt
      rw [if_neg hti]
    rw [hval]
    omega

/-- C10 witness: a concrete in-range instant (0.5 s after the epoch) where
    the valid-interval branch stays within one second of the current Unix
    second, and a concrete invalid interval (7) taking the 30-minute branch. -/
theorem Mem.C10_witness :
    ((500000000 : Int) / 1000000000 ≤ Mem.ExpiryTimeOpt 1 3 500000000 ∧
      Mem.ExpiryTimeOpt 1 3 500000000 ≤ (500000000 : Int) / 1000000000 + 1) ∧
    Mem.ExpiryTimeOpt 7 3 500000000 = (500000000 : Int) / 1000000000 + 1800 := by
  constructor
  · constructor
    · exact ((Mem.C10_expiry_adds_nanoseconds 1 3 500000000).1
        (Or.inl rfl)).2.1
    · exact ((Mem.C10_expiry_adds_nanoseconds 1 3 500000000).1
        (Or.inl rfl)).2.2 (by decide)
  · exact (Mem.C10_expiry_adds_nanoseconds 7 3 500000000).2 (by decide)

/-- C5: the startTime parser is NOT total. When the first colon-separated
    field is numeric but there is no second field (no colon at all, e.g.
    "5"), Go evaluates strings.Split(s, ":")[1] on a one-element slice and
    panics with an index-out-of-range runtime error (modelled here as none)
    instead of returning (0, 0). The lenient (0, 0) fallback does hold for a
    non-numeric first field (including the repository's own test input
    "1s:00" and the empty string), and well-formed input parses normally. -/
theorem Mem.C5_gettime_panics_without_colon :
    Mem.GetTime "5" = none ∧
    Mem.GetTime "" = some (0, 0) ∧
    Mem.GetTime "1s:00" = some (0, 0) ∧
    Mem.GetTime "23:45" = some (23, 45) := by
  refine ⟨by decide, by decide, by decide, by decide⟩

/-- C6: the weekly next-run arithmetic is wrong. Concretely: now is Sunday
    1970-01-04 00:00 (day number 3, weekday index 0 = SUNDAY - 1), the
    validated schedule asks for MONDAY at "01:00". The code's offset
    (Interval - 1) + weekday(now) - 1 resolves to 0 days, scheduling
    1970-01-04 01:00 (Unix 262800) -- which falls on a SUNDAY, not the
    configured MONDAY; the next Monday would be day 4 (1970-01-05). -/
theorem Mem.C6_weekly_wrong_weekday :
    Mem.scheduleError ⟨Mem.WEEKLY, Mem.MONDAY, 0, "01:00"⟩ = none ∧
    Mem.GoTime.weekday ⟨1970, 1, 4, 0, 0⟩ = Mem.SUNDAY - 1 ∧
    Mem.CleanWeekly ⟨Mem.WEEKLY, Mem.MONDAY, 0, "01:00"⟩ ⟨1970, 1, 4, 0, 0⟩
      = some (⟨Mem.WEEKLY, Mem.MONDAY, 0, "01:00"⟩, 262800) ∧
    Mem.weekdayOfDay ((262800 : Int) / 86400) = Mem.SUNDAY - 1 ∧
    Mem.SUNDAY - 1 ≠ Mem.MONDAY - 1 ∧
    Mem.weekdayOfDay 4 = Mem.MONDAY - 1 := by
  refine ⟨by decide, by decide, by decide, by decide, by decide, by decide⟩

/-- C7: for a Frequent schedule with a recognized interval unit, the
    computed next run is now (Unix seconds) + intervalValue * unit seconds,
    with intervalValue taken as 1 when it is ≤ 0; in particular with
    interval = Second and value 3 it is exactly now + 3 seconds. -/
theorem Mem.C7_frequent_next_run (s : Mem.CleanerSchedule) (now : Mem.GoTime)
    (nr0 : Int) (hwf : now.WF)
    (hi : s.interval = Mem.EVERY_SECOND ∨ s.interval = Mem.EVERY_MINUTE ∨
      s.interval = Mem.EVERY_HOUR) :
    (Mem.CleanFrequently s now nr0).2
      = now.toUnix + Mem.effectiveIntervalValue s.intervalValue *
          Mem.specUnitSeconds s.interval ∧
    (s.interval = Mem.EVERY_SECOND → s.intervalValue = 3 →
      (Mem.CleanFrequently s now nr0).2 = now.toUnix + 3) := by
  obtain ⟨hs1, hs2, hn1, hn2⟩ := hwf
  have hns : now.toUnixNs = now.toUnix * 1000000000 + now.nsOfSec := rfl
  have hint : (if s.intervalValue ≤ 0 then
      { s with intervalValue := 1 } else s).interval = s.interval := by
    split <;> rfl
  have hval : (if s.intervalValue ≤ 0 then
      { s with intervalValue := 1 } else s).intervalValue
        = Mem.effectiveIntervalValue s.intervalValue := by
    unfold Mem.effectiveIntervalValue
    split <;> rfl
  have hmain : (Mem.CleanFrequently s now nr0).2
      = now.toUnix + Mem.effectiveIntervalValue s.intervalValue *
          Mem.specUnitSeconds s.interval := by
    unfold Mem.CleanFrequently
    dsimp only
    rw [hint, hval]
    unfold Mem.specUnitSeconds
    rcases hi with hi | hi | hi <;>
      simp only [hi, Mem.EVERY_SECOND, Mem.EVERY_MINUTE, Mem.EVERY_HOUR] <;>
      norm_num <;>
      omega
  refine ⟨hmain, ?_⟩
  intro hsec hv3
  rw [hmain, hsec, hv3]
  unfold Mem.effectiveIntervalValue Mem.specUnitSeconds Mem.EVERY_SECOND
  norm_num

/-- C7 witness: a Frequent schedule (Second, value 3) at the well-formed
    instant 1970-01-02 00:00:05.5 local time (Unix 86405) yields next run
    86408 = now + 3. -/
theorem Mem.C7_witness :
    (Mem.CleanFrequently ⟨Mem.FREQUENTLY, Mem.EVERY_SECOND, 3, ""⟩
        ⟨1970, 1, 2, 5, 500000000⟩ 0).2
      = Mem.GoTime.toUnix ⟨1970, 1, 2, 5, 500000000⟩ + 3 :=
  (Mem.C7_frequent_next_run ⟨Mem.FREQUENTLY, Mem.EVERY_SECOND, 3, ""⟩
      ⟨1970, 1, 2, 5, 500000000⟩ 0 (by decide) (Or.inl rfl)).2 rfl rfl

/-- Helper: the Go time.Date day argument is normalized by plain day
    arithmetic, so the civil day number is affine in it. -/
theorem Mem.dateToDay_day_succ (y m d : Int) :
    Mem.dateToDay y m (d + 1) = Mem.dateToDay y m d + 1 := by
  unfold Mem.dateToDay Mem.daysFromCivil Mem.civilDoy
  ring

/-- C8 counterexample: the Daily schedule with startTime "-30:00" passes
    validation (Daily only requires a non-blank startTime) and GetTime parses
    it to hour -30; at the well-formed instant 1970-01-02 22:13:20 local
    (Unix 166400) the computed next run is Unix 64800 = 1970-01-01 18:00,
    which is NOT strictly later than now (it is in the past), contradicting
    the claim's "always strictly later than now". -/
theorem Mem.C8_daily_counterexample :
    Mem.scheduleError ⟨Mem.DAILY, 0, 0, "-30:00"⟩ = none ∧
    Mem.GetTime "-30:00" = some (-30, 0) ∧
    Mem.GoTime.WF ⟨1970, 1, 2, 80000, 0⟩ ∧
    Mem.CleanDaily ⟨Mem.DAILY, 0, 0, "-30:00"⟩ ⟨1970, 1, 2, 80000, 0⟩
      = some (⟨Mem.DAILY, 0, 0, "-30:00"⟩, 64800) ∧
    (64800 : Int) < Mem.GoTime.toUnix ⟨1970, 1, 2, 80000, 0⟩ := by
  refine ⟨by decide, by decide, by decide, by decide, by decide⟩

/-- C8 amended: for a Daily schedule whose startTime parses without panic to
    a NONNEGATIVE (hour, minute) -- which includes every well-formed "HH:MM"
    -- the next run is the parsed (hour, minute) on the calendar day
    immediately following now's date (day number + 1) and is strictly later
    than now; a parseable negative hour (still accepted by validation) can
    place it in the past, and a numeric colon-free startTime panics. -/
theorem Mem.C8_daily_next_day_strictly_future (s : Mem.CleanerSchedule)
    (now : Mem.GoTime) (h mi : Int)
    (hp : Mem.GetTime s.startTime = some (h, mi)) (hh : 0 ≤ h) (hm : 0 ≤ mi)
    (_hs : 0 ≤ now.secOfDay) (hs2 : now.secOfDay < 86400) :
    Mem.CleanDaily s now
      = some (s, (now.dayNum + 1) * 86400 + h * 3600 + mi * 60) ∧
    now.toUnix < (now.dayNum + 1) * 86400 + h * 3600 + mi * 60 := by
  constructor
  · unfold Mem.CleanDaily
    rw [hp]
    have hsucc : Mem.dateToDay now.year now.month (now.day + 1)
        = now.dayNum + 1 := Mem.dateToDay_day_succ now.year now.month now.day
    rw [hsucc]
  · have h1 : 0 ≤ h * 3600 := mul_nonneg hh (by norm_num)
    have h2 : 0 ≤ mi * 60 := mul_nonneg hm (by norm_num)
    unfold Mem.GoTime.toUnix
    linarith

/-- C8 witness: a Daily schedule at "06:30" run at 2023-05-15 13:53:20 local
    schedules the next day and lands strictly in the future. -/
theorem Mem.C8_witness :
    Mem.CleanDaily ⟨Mem.DAILY, 0, 0, "06:30"⟩ ⟨2023, 5, 15, 50000, 0⟩
      = some (⟨Mem.DAILY, 0, 0, "06:30"⟩,
          (Mem.GoTime.dayNum ⟨2023, 5, 15, 50000, 0⟩ + 1) * 86400 +
            6 * 3600 + 30 * 60) ∧
    Mem.GoTime.toUnix ⟨2023, 5, 15, 50000, 0⟩
      < (Mem.GoTime.dayNum ⟨2023, 5, 15, 50000, 0⟩ + 1) * 86400 +
          6 * 3600 + 30 * 60 :=
  Mem.C8_daily_next_day_strictly_future ⟨Mem.DAILY, 0, 0, "06:30"⟩
    ⟨2023, 5, 15, 50000, 0⟩ 6 30 (by decide) (by decide) (by decide)
    (by decide) (by decide)

/-- C9 counterexample: the Frequent schedule (EVERY_SECOND, intervalValue 0,
    no start time) passes validation -- Error() never examines IntervalValue
    -- yet the first next-run computation CleanFrequently writes through to
    the schedule, changing IntervalValue from 0 to 1: a validated schedule
    is NOT immutable. -/
theorem Mem.C9_schedule_mutated_counterexample :
    Mem.scheduleError ⟨Mem.FREQUENTLY, Mem.EVERY_SECOND, 0, ""⟩ = none ∧
    (Mem.CleanFrequently ⟨Mem.FREQUENTLY, Mem.EVERY_SECOND, 0, ""⟩
        ⟨1970, 1, 1, 0, 0⟩ 0).1
      = ⟨Mem.FREQUENTLY, Mem.EVERY_SECOND, 1, ""⟩ ∧
    (⟨Mem.FREQUENTLY, Mem.EVERY_SECOND, 1, ""⟩ : Mem.CleanerSchedule)
      ≠ ⟨Mem.FREQUENTLY, Mem.EVERY_SECOND, 0, ""⟩ := by
  refine ⟨by decide, by decide, by decide⟩

/-- C9 amended: whenever intervalValue ≥ 1 (which the ≤ 0 normalization of
    the Frequent path never triggers), every next-run operation -- the four
    initial computations and the recomputation UpdateNextRun -- leaves the
    schedule (kind, interval, intervalValue, startTime) unchanged; only a
    validated Frequent schedule whose intervalValue is ≤ 0 is ever mutated,
    and only by normalizing that field to 1. -/
theorem Mem.C9_schedule_preserved (s : Mem.CleanerSchedule) (now : Mem.GoTime)
    (nr0 : Int) (hv : 1 ≤ s.intervalValue) :
    (Mem.CleanFrequently s now nr0).1 = s ∧
    (∀ r, Mem.CleanDaily s now = some r → r.1 = s) ∧
    (∀ r, Mem.CleanWeekly s now = some r → r.1 = s) ∧
    (∀ r, Mem.CleanMonthly s now = some r → r.1 = s) ∧
    (∀ r, Mem.UpdateNextRun s now nr0 = some r → r.1 = s) := by
  have hfreq : (Mem.CleanFrequently s now nr0).1 = s := by
    unfold Mem.CleanFrequently
    have hnile : ¬ s.intervalValue ≤ 0 := by omega
    simp [hnile]
  have hdaily : ∀ r, Mem.CleanDaily s now = some r → r.1 = s := by
    intro r hr
    unfold Mem.CleanDaily at hr
    cases hg : Mem.GetTime s.startTime with
    | none => rw [hg] at hr; exact Option.noConfusion hr
    | some p =>
        obtain ⟨h, mi⟩ := p
        rw [hg] at hr
        obtain rfl := Option.some.inj hr
        rfl
  have hweekly : ∀ r, Mem.CleanWeekly s now = some r → r.1 = s := by
    intro r hr
    unfold Mem.CleanWeekly at hr
    cases hg : Mem.GetTime s.startTime with
    | none => rw [hg] at hr; exact Option.noConfusion hr
    | some p =>
        obtain ⟨h, mi⟩ := p
        rw [hg] at hr
        obtain rfl := Option.some.inj hr
        rfl
  have hmonthly : ∀ r, Mem.CleanMonthly s now = some r → r.1 = s := by
    intro r hr
    unfold Mem.CleanMonthly at hr
    cases hg : Mem.GetTime s.startTime with
    | none => rw [hg] at hr; exact Option.noConfusion hr
    | some p =>
        obtain ⟨h, mi⟩ := p
        rw [hg] at hr
        obtain rfl := Option.some.inj hr
        rfl
  refine ⟨hfreq, hdaily, hweekly, hmonthly, ?_⟩
  intro r hr
  unfold Mem.UpdateNextRun at hr
  by_cases h0 : s.scheduleType = Mem.FREQUENTLY
  · rw [if_pos h0] at hr
    obtain rfl := Option.some.inj hr
    exact hfreq
  · rw [if_neg h0] at hr
    by_cases h1 : s.scheduleType = Mem.DAILY
    · rw [if_pos h1] at hr
      exact hdaily r hr
    · rw [if_neg h1] at hr
      by_cases h2 : s.scheduleType = Mem.WEEKLY
      · rw [if_pos h2] at hr
        exact hweekly r hr
      · rw [if_neg h2] at hr
        by_cases h3 : s.scheduleType = Mem.MONTHLY
        · rw [if_pos h3] at hr
          exact hmonthly r hr
        · rw [if_neg h3] at hr
          obtain rfl := Option.some.inj hr
          rfl

/-- C9 witness: UpdateNextRun of a Daily schedule with intervalValue 5 at
    2023-01-01 00:00 local produces next run Unix 1672624800 (2023-01-02
    02:00) with the schedule component unchanged. -/
theorem Mem.C9_witness :
    ((⟨Mem.DAILY, 0, 5, "02:00"⟩, (1672624800 : Int)) :
        Mem.CleanerSchedule × Int).1 = ⟨Mem.DAILY, 0, 5, "02:00"⟩ :=
  (Mem.C9_schedule_preserved ⟨Mem.DAILY, 0, 5, "02:00"⟩ ⟨2023, 1, 1, 0, 0⟩ 0
    (by decide)).2.2.2.2 (⟨Mem.DAILY, 0, 5, "02:00"⟩, 1672624800) (by decide)
